import Mathlib

/-
Verification of the supporting-content parser of
src/app/frontend/src/components/SupportingContent/SupportingContentParser.ts.

The TypeScript source is embedded shallowly over `List Char`:

  * `String.prototype.split(": ")` / `Array.prototype.join(": ")` become
    `splitColonSpace` / `joinSep`;
  * the regex literal `/Availability:\\s*([0-9.]+)/i` from line 15 becomes
    `findAvail`.  Note carefully: in a JavaScript regex *literal*, the
    two-character sequence `\\` denotes one literal backslash character, so
    this pattern matches `Availability:` followed by a literal `\`, then a
    (case-insensitive, because of the `i` flag) run of `s` characters, then a
    captured run of `[0-9.]` characters.  The embedding reproduces exactly
    that behaviour;
  * the regex literal `/;\\s*\\.?$/` from line 18 (no `i` flag) becomes
    `stripDangling`, again with `\\` denoting a literal backslash;
  * the label-emphasis regexes of `boldMetadataLabels` are built with
    `new RegExp` from the template *string* `(^|[\\n\\r\\s;,.])(label)\\s*:`
    with flags `gi`; inside a string `\\s` denotes the two characters `\s`,
    which the regex engine then reads as the whitespace class, so these
    patterns do use the genuine whitespace class.  They become
    `scanBold`;
  * `Number(...)` on the captured `[0-9.]+` token becomes `jsNumberOfToken`
    (over `ℚ`; the token grammar only produces values that are exact in
    both binary floating point and `ℚ` for every input exercised here), and
    `Math.round(x * 100) + "%"` becomes `formatPercent`;
  * `DOMPurify.sanitize` is an external npm dependency whose code is not part
    of this repository; it is modelled from the spec, see
    `dompurifySanitize`.

All definitions are structurally recursive (scanning functions take an
explicit fuel equal to the input length, which is always sufficient because
every step consumes at least one character), so every function evaluates by
kernel reduction.
-/

namespace SupportingContent

/-- The output record of `parseSupportingContentItem`
(type `ParsedSupportingContentItem` of the source, line 3). -/
structure ParsedSupportingContentItem where
  title : String
  content : String
  availability : Option String
deriving Repr, DecidableEq

/-! ### JavaScript character classes and case folding -/

/-- The characters matched by the JavaScript regex class `\s`
(ECMAScript WhiteSpace together with LineTerminator). -/
def jsWhitespaceChars : List Char :=
  ['\t', '\n', '\x0B', '\x0C', '\r', ' ', '\u00A0', '\u1680', '\u2000',
   '\u2001', '\u2002', '\u2003', '\u2004', '\u2005', '\u2006', '\u2007',
   '\u2008', '\u2009', '\u200A', '\u2028', '\u2029', '\u202F', '\u205F',
   '\u3000', '\uFEFF']

/-- `\s` membership as a Boolean predicate. -/
def isJsSpace (c : Char) : Bool := jsWhitespaceChars.contains c

/-- The characters of the boundary class `[\n\r\s;,.]` used by
`boldMetadataLabels` (line 84 of the source). -/
def boundaryChars : List Char :=
  '\n' :: '\r' :: jsWhitespaceChars ++ [';', ',', '.']

/-- Membership in the boundary class `[\n\r\s;,.]`. -/
def isBoundaryChar (c : Char) : Bool :=
  c == '\n' || c == '\r' || isJsSpace c || c == ';' || c == ',' || c == '.'

/-- Case canonicalisation performed by the regex `i` flag for the characters
occurring in this source: ASCII letters and Latin-1 letters (covering the
accented letters of the French labels) are folded to upper case. -/
def jsFoldChar (c : Char) : Char :=
  let n := c.toNat
  if (97 ≤ n ∧ n ≤ 122) ∨ (0xE0 ≤ n ∧ n ≤ 0xFE ∧ n ≠ 0xF7) then
    Char.ofNat (n - 32)
  else c

/-- Case-insensitive literal match of `lab` at the head of `s`: returns the
matched characters of `s` (original case, as captured by a regex group) and
the remainder. -/
def matchLabel : List Char → List Char → Option (List Char × List Char)
  | [], s => some ([], s)
  | _ :: _, [] => none
  | l :: ls, c :: cs =>
    if jsFoldChar c = jsFoldChar l then
      match matchLabel ls cs with
      | some (m, r) => some (c :: m, r)
      | none => none
    else none

/-! ### `item.split(": ")` and `parts.slice(1).join(": ")` (lines 12-14) -/

/-- `String.prototype.split(": ")`: cut at every non-overlapping occurrence
of the two-character separator, scanning left to right. -/
def splitColonSpace : List Char → List (List Char)
  | [] => [[]]
  | [c] => [[c]]
  | c :: d :: rest =>
    if c == ':' && d == ' ' then [] :: splitColonSpace rest
    else
      match splitColonSpace (d :: rest) with
      | [] => [[c]]
      | h :: t => (c :: h) :: t

/-- Whether the separator `": "` occurs in `s`. -/
def containsSep : List Char → Bool
  | [] => false
  | [_] => false
  | c :: d :: rest => (c == ':' && d == ' ') || containsSep (d :: rest)

/-- `Array.prototype.join(": ")`. -/
def joinSep : List (List Char) → List Char
  | [] => []
  | [x] => x
  | x :: y :: t => x ++ ':' :: ' ' :: joinSep (y :: t)

/-! ### The availability regex `/Availability:\\s*([0-9.]+)/i` (line 15) -/

/-- Characters of the class `[0-9.]`. -/
def isDigitDotChar (c : Char) : Bool :=
  decide (48 ≤ c.toNat ∧ c.toNat ≤ 57) || c == '.'

/-- Attempt to match `Availability:\\s*([0-9.]+)` (with the `i` flag) at the
head of `s`.  As explained in the header, `\\` in the regex literal is one
literal backslash, and `s*` is a run of (case-insensitive) `s` characters.
Returns `(whole match, captured group)`. -/
def availAt (s : List Char) : Option (List Char × List Char) :=
  match matchLabel "Availability:".data s with
  | none => none
  | some (m1, r1) =>
    match r1 with
    | '\\' :: r2 =>
      let srun := r2.takeWhile fun c => c == 's' || c == 'S'
      let r3 := r2.dropWhile fun c => c == 's' || c == 'S'
      let tok := r3.takeWhile isDigitDotChar
      if tok.isEmpty then none else some (m1 ++ '\\' :: (srun ++ tok), tok)
    | _ => none

/-- `rawContent.match(...)`: leftmost match of the availability pattern. -/
def findAvail : List Char → Option (List Char × List Char)
  | [] => none
  | c :: cs =>
    match availAt (c :: cs) with
    | some r => some r
    | none => findAvail cs

/-- `String.prototype.replace` with a plain-string pattern and empty
replacement: remove the first occurrence of `needle`. -/
def removeFirst (needle : List Char) : List Char → List Char
  | [] => []
  | c :: cs =>
    if needle.isPrefixOf (c :: cs) then List.drop needle.length (c :: cs)
    else c :: removeFirst needle cs

/-! ### The trailing-strip regex `/;\\s*\\.?$/` (line 18, no `i` flag) -/

/-- ECMAScript LineTerminator characters (which `.` does not match). -/
def isLineTerminator (c : Char) : Bool :=
  c == '\n' || c == '\r' || c == '\u2028' || c == '\u2029'

/-- Whether `;\\s*\\.?$` matches starting at the head of `s` (any match
necessarily extends to the end of the string).  `\\` is again one literal
backslash and `s*` a run of lowercase `s` (no `i` flag on this regex). -/
def weirdTailMatches (s : List Char) : Bool :=
  match s with
  | ';' :: '\\' :: r2 =>
    match r2.dropWhile (fun c => c == 's') with
    | '\\' :: r4 =>
      match r4 with
      | [] => true
      | [c] => !(isLineTerminator c)
      | _ => false
    | _ => false
  | _ => false

/-- `.replace(/;\\s*\\.?$/, "")`: remove the leftmost (hence only) match,
which runs to the end of the string; if there is none, leave `s` alone. -/
def stripDangling : List Char → List Char
  | [] => []
  | c :: cs => if weirdTailMatches (c :: cs) then [] else c :: stripDangling cs

/-! ### `Number(...)` and `Math.round(x*100) + "%"` (lines 24-29) -/

/-- Value of a run of decimal digits. -/
def digitsToNat (l : List Char) : Nat :=
  l.foldl (fun a c => 10 * a + (c.toNat - 48)) 0

/-- `Number(tok)` for a token drawn from `[0-9.]+` (the only strings this is
ever applied to): a finite value exactly when the token contains at most one
dot and at least one digit. -/
def jsNumberOfToken (tok : List Char) : Option ℚ :=
  if tok.all (fun c => decide (48 ≤ c.toNat ∧ c.toNat ≤ 57)) then
    some (digitsToNat tok)
  else
    let ip := tok.takeWhile fun c => c != '.'
    match tok.dropWhile (fun c => c != '.') with
    | '.' :: fp =>
      if (ip.all fun c => decide (48 ≤ c.toNat ∧ c.toNat ≤ 57)) &&
         (fp.all fun c => decide (48 ≤ c.toNat ∧ c.toNat ≤ 57)) &&
         !(ip.isEmpty && fp.isEmpty) then
        some ((digitsToNat ip : ℚ) + (digitsToNat fp : ℚ) / (10 : ℚ) ^ fp.length)
      else none
    | _ => none

/-- The template literal `` `${Math.round(parsed * 100)}%` ``; `Math.round`
rounds half away from zero for the non-negative values produced here. -/
def formatPercent (q : ℚ) : String :=
  toString (Int.floor (q * 100 + 1 / 2)) ++ "%"

/-! ### The metadata label table and `boldMetadataLabels` (lines 39-87) -/

/-- The static label table `LABELS_TO_BOLD` (lines 39-77), in source order. -/
def LABELS_TO_BOLD : List String :=
  ["Booking URL",
   "Booking Url",
   "URL",
   "Email",
   "Practice",
   "Pratique",
   "Role",
   "Rôle",
   "Availability",
   "Disponibilité",
   "Location",
   "Localisation",
   "Category",
   "Catégorie",
   "Description",
   "Compétences techniques",
   "Compétences supplémentaires",
   "Compétences additionnelles",
   "Compétences",
   "Competences",
   "Skills",
   "Technologies",
   "Techniques",
   "Méthodes",
   "Methodes",
   "Méthodologies",
   "Methodologies",
   "Outils collaboratifs",
   "Outils et plateformes",
   "Outils et bibliothèques",
   "Outils",
   "Secteur d'activité",
   "Secteurs",
   "Secteur",
   "Domaines de pratique",
   "Domaines",
   "Industry"]

/-- Stable insertion of `x` into a list already sorted by descending length:
`x` goes before the first element that is not longer than it. -/
def insertByLen (x : String) : List String → List String
  | [] => [x]
  | y :: ys => if y.length ≤ x.length then x :: y :: ys else y :: insertByLen x ys

/-- Stable sort by descending length. -/
def sortByLenDesc : List String → List String
  | [] => []
  | x :: xs => insertByLen x (sortByLenDesc xs)

/-- `[...LABELS_TO_BOLD].sort((a, b) => b.length - a.length)` (line 79):
JavaScript `Array.prototype.sort` is stable, so this is the stable descending
sort by length. -/
def labelsByLength : List String := sortByLenDesc LABELS_TO_BOLD

/-- After the label, the pattern `\s*:` — a greedy run of `\s` followed by a
colon (no backtracking is possible since `:` is not in `\s`).  Returns the
matched label characters and the rest after the colon. -/
def tryLabelAt (lab s : List Char) : Option (List Char × List Char) :=
  match matchLabel lab s with
  | none => none
  | some (m, r) =>
    match r.dropWhile isJsSpace with
    | ':' :: rest => some (m, rest)
    | _ => none

/-- The replacement `` `${pre}**${matched}:**` `` (line 85). -/
def boldChunk (pre m : List Char) : List Char :=
  pre ++ '*' :: '*' :: (m ++ ':' :: '*' :: '*' :: [])

/-- The `[\n\r\s;,.]` alternative of the prefix group: the boundary character
is consumed and preserved in the replacement. -/
def tryBoundaryMatch (lab : List Char) (s : List Char) :
    Option (List Char × List Char) :=
  match s with
  | [] => none
  | c :: cs =>
    if isBoundaryChar c then
      match tryLabelAt lab cs with
      | some (m, rest) => some (boldChunk [c] m, rest)
      | none => none
    else none

/-- A match of `(^|[\n\r\s;,.])(lab)\s*:` starting at the current position;
`atStart` records whether the position is the start of the string (the only
place `^` can match, the regex having no `m` flag).  `^` is tried before the
character class, as regex alternation does. -/
def tryMatchAt (lab : List Char) (atStart : Bool) (s : List Char) :
    Option (List Char × List Char) :=
  if atStart then
    match tryLabelAt lab s with
    | some (m, rest) => some (boldChunk [] m, rest)
    | none => tryBoundaryMatch lab s
  else tryBoundaryMatch lab s

/-- Global (`g` flag) replacement scan: at each position try to match; on a
match emit the replacement and continue after the match, otherwise copy one
character.  Fuel-indexed so that it is structurally recursive; every step
consumes at least one character, so fuel `s.length` suffices. -/
def scanBoldFuel (lab : List Char) : Nat → Bool → List Char → List Char
  | 0, _, s => s
  | Nat.succ fuel, atStart, s =>
    match tryMatchAt lab atStart s with
    | some (chunk, rest) => chunk ++ scanBoldFuel lab fuel false rest
    | none =>
      match s with
      | [] => []
      | c :: cs => c :: scanBoldFuel lab fuel false cs

/-- `text.replace(pattern, (match, pre, matched) => ...)` for one label. -/
def scanBold (lab : List Char) (atStart : Bool) (s : List Char) : List Char :=
  scanBoldFuel lab s.length atStart s

/-- `boldMetadataLabels` (lines 81-87): fold the per-label global replacement
over the labels, longest first.  Escaping of the label before compilation
(line 83) only serves to make the label match literally, which `matchLabel`
does directly. -/
def boldMetadataLabels (input : List Char) : List Char :=
  labelsByLength.foldl (fun text label => scanBold label.data true text) input

/-! ### DOMPurify model -/

/-- Case-insensitive prefix test. -/
def startsWithCI (pat s : List Char) : Bool := (matchLabel pat s).isSome

/-- Drop everything through the next `</script>` close tag (or the whole
rest if there is none). -/
def dropThroughClose : List Char → List Char
  | [] => []
  | c :: cs =>
    if startsWithCI "</script>".data (c :: cs) then List.drop 9 (c :: cs)
    else dropThroughClose cs

/-- Fuel-indexed scan removing script elements; each step consumes at least
one character so fuel `s.length` suffices. -/
def dompurifySanitizeFuel : Nat → List Char → List Char
  | 0, s => s
  | Nat.succ fuel, s =>
    match s with
    | [] => []
    | c :: cs =>
      if startsWithCI "<script".data (c :: cs) then
        dompurifySanitizeFuel fuel (dropThroughClose (List.drop 7 (c :: cs)))
      else c :: dompurifySanitizeFuel fuel cs

/-- Modelled from the spec: `DOMPurify.sanitize` is provided by the external
`dompurify` npm package, whose implementation is not part of this repository
(only its call site at line 21 is).  Following the spec — "strip or
neutralize tags and attributes capable of script execution or DOM-based
injection, while preserving the inserted emphasis markers and ordinary text
content" — the model removes every `<script ...>...</script>` element
together with its content (as DOMPurify does) and leaves text containing no
such element unchanged. -/
def dompurifySanitize (s : List Char) : List Char :=
  dompurifySanitizeFuel s.length s

/-! ### The parser (lines 9-37) -/

/-- `parts[0]` where `parts = item.split(": ")` (line 13). -/
def rawTitleL (s : List Char) : List Char := (splitColonSpace s).headD []

/-- `parts.slice(1).join(": ")` (line 14). -/
def rawBodyL (s : List Char) : List Char := joinSep (splitColonSpace s).tail

/-- Lines 16-19: remove the whole availability match from the content and
strip the dangling tail, when the availability regex matched. -/
def contentAfterAvail (s : List Char) : List Char :=
  match findAvail s with
  | some (whole, _) => stripDangling (removeFirst whole s)
  | none => s

/-- Lines 22-30: the availability output field. -/
def availabilityField (s : List Char) : Option String :=
  match findAvail s with
  | some (_, tok) =>
    match jsNumberOfToken tok with
    | some q => some (formatPercent q)
    | none => some (String.mk tok)
  | none => none

/-- `parseSupportingContentItem` (lines 9-37). -/
def parseSupportingContentItem (item : String) : ParsedSupportingContentItem :=
  let rawContent := rawBodyL item.data
  { title := String.mk (rawTitleL item.data)
    content :=
      String.mk (dompurifySanitize (boldMetadataLabels (contentAfterAvail rawContent)))
    availability := availabilityField rawContent }

/-- The same pipeline with the one fallible step made explicit: `parts[0]`
is an out-of-bounds array access if `split` returned no segments.  The
totality theorem shows this never yields `none`. -/
def parseSupportingContentItemChecked (item : String) :
    Option ParsedSupportingContentItem :=
  match splitColonSpace item.data with
  | [] => none
  | t :: rest =>
    some { title := String.mk t
           content :=
             String.mk (dompurifySanitize (boldMetadataLabels (contentAfterAvail (joinSep rest))))
           availability := availabilityField (joinSep rest) }

/-- Substring test, used to state the sanitization claim. -/
def hasSubstring (needle : List Char) : List Char → Bool
  | [] => needle.isEmpty
  | c :: cs => needle.isPrefixOf (c :: cs) || hasSubstring needle cs

theorem splitColonSpace_ne_nil (s : List Char) : splitColonSpace s ≠ [] := by
  induction s using splitColonSpace.induct with
  | case1 => simp [splitColonSpace]
  | case2 c => simp [splitColonSpace]
  | case3 c d rest h ih => simp [splitColonSpace, h]
  | case4 c d rest h hnil ih => exact absurd hnil ih
  | case5 c d rest h y t hs ih => simp [splitColonSpace, h, hs]

theorem joinSep_splitColonSpace (s : List Char) :
    joinSep (splitColonSpace s) = s := by
  induction s using splitColonSpace.induct with
  | case1 => rfl
  | case2 c => rfl
  | case3 c d rest h ih =>
    obtain ⟨hc, hd⟩ : c = ':' ∧ d = ' ' := by
      simpa [Bool.and_eq_true, beq_iff_eq] using h
    subst hc; subst hd
    simp only [splitColonSpace, if_pos h]
    cases hs : splitColonSpace rest with
    | nil => exact absurd hs (splitColonSpace_ne_nil rest)
    | cons y t =>
      rw [hs] at ih
      cases t <;> simp_all [joinSep]
  | case4 c d rest h hnil ih => exact absurd hnil (splitColonSpace_ne_nil _)
  | case5 c d rest h y t hs ih =>
    rw [hs] at ih
    simp only [splitColonSpace, if_neg h, hs]
    cases t with
    | nil => simpa [joinSep] using congrArg (c :: ·) ih
    | cons z t' =>
      simp only [joinSep, List.cons_append] at ih ⊢
      simpa using congrArg (c :: ·) ih

theorem splitColonSpace_of_not_contains {s : List Char}
    (hn : containsSep s = false) : splitColonSpace s = [s] := by
  induction s using splitColonSpace.induct with
  | case1 => rfl
  | case2 c => rfl
  | case3 c d rest h ih =>
    simp [containsSep, h] at hn
  | case4 c d rest h hnil ih => exact absurd hnil (splitColonSpace_ne_nil _)
  | case5 c d rest h y t hs ih =>
    simp only [containsSep, Bool.or_eq_false_iff] at hn
    have h2 := ih hn.2
    simp only [splitColonSpace, if_neg h, h2]

theorem title_body_decomp {s : List Char} (hc : containsSep s = true) :
    s = rawTitleL s ++ ':' :: ' ' :: rawBodyL s ∧
      containsSep (rawTitleL s) = false := by
  induction s using splitColonSpace.induct with
  | case1 => simp [containsSep] at hc
  | case2 c => simp [containsSep] at hc
  | case3 c d rest h ih =>
    obtain ⟨hcolon, hspace⟩ : c = ':' ∧ d = ' ' := by
      simpa [Bool.and_eq_true, beq_iff_eq] using h
    subst hcolon; subst hspace
    cases hs : splitColonSpace rest with
    | nil => exact absurd hs (splitColonSpace_ne_nil rest)
    | cons y t =>
      have hjoin : joinSep (y :: t) = rest := by
        rw [← hs]; exact joinSep_splitColonSpace rest
      constructor
      · simp only [rawTitleL, rawBodyL, splitColonSpace, if_pos h, hs]
        simp [hjoin]
      · simp [rawTitleL, splitColonSpace, if_pos h, containsSep]
  | case4 c d rest h hnil ih => exact absurd hnil (splitColonSpace_ne_nil _)
  | case5 c d rest h y t hs ih =>
    have hc' : containsSep (d :: rest) = true := by
      simp only [containsSep, Bool.or_eq_true] at hc
      rcases hc with hc | hc
      · exact absurd hc h
      · exact hc
    obtain ⟨ihd, ihcs⟩ := ih hc'
    simp only [rawTitleL, rawBodyL, hs, List.headD_cons, List.tail_cons] at ihd ihcs
    constructor
    · simp only [rawTitleL, rawBodyL, splitColonSpace, if_neg h, hs,
        List.headD_cons, List.tail_cons, List.cons_append]
      exact congrArg (c :: ·) ihd
    · simp only [rawTitleL, splitColonSpace, if_neg h, hs, List.headD_cons]
      cases y with
      | nil => rfl
      | cons e y' =>
        have hde : d = e := by
          simpa using congrArg (fun l => l.headD ' ') ihd
        simp only [containsSep, Bool.or_eq_false_iff]
        refine ⟨?_, ?_⟩
        · subst hde
          simpa using h
        · exact ihcs

theorem matchLabel_self (lab r : List Char) :
    matchLabel lab (lab ++ r) = some (lab, r) := by
  induction lab with
  | nil => rfl
  | cons l ls ih => simp [matchLabel, ih]

theorem matchLabel_head_ne {l b : Char} (ls s : List Char)
    (h : jsFoldChar b ≠ jsFoldChar l) :
    matchLabel (l :: ls) (b :: s) = none := by
  simp [matchLabel, h]

theorem matchLabel_some_length {lab s m r : List Char}
    (h : matchLabel lab s = some (m, r)) : r.length ≤ s.length := by
  induction lab generalizing s m with
  | nil =>
    simp only [matchLabel, Option.some.injEq, Prod.mk.injEq] at h
    obtain ⟨-, hr⟩ := h
    rw [← hr]
  | cons l ls ih =>
    cases s with
    | nil => simp [matchLabel] at h
    | cons c cs =>
      simp only [matchLabel] at h
      split at h
      · cases hm : matchLabel ls cs with
        | none => rw [hm] at h; simp at h
        | some p =>
          obtain ⟨m', r'⟩ := p
          rw [hm] at h
          simp only [Option.some.injEq, Prod.mk.injEq] at h
          obtain ⟨-, hr⟩ := h
          subst hr
          have := ih hm
          simpa using Nat.le_succ_of_le this
      · simp at h

theorem dropWhile_length_le (p : Char → Bool) (l : List Char) :
    (List.dropWhile p l).length ≤ l.length := by
  induction l with
  | nil => simp
  | cons c cs ih =>
    simp only [List.dropWhile_cons]
    split
    · exact Nat.le_succ_of_le ih
    · simp

theorem dropWhile_spaces {ws : List Char} (r : List Char)
    (h : ∀ c ∈ ws, isJsSpace c = true) :
    List.dropWhile isJsSpace (ws ++ r) = List.dropWhile isJsSpace r := by
  induction ws with
  | nil => rfl
  | cons c cs ih =>
    simp only [List.cons_append, List.dropWhile_cons, h c (by simp), if_true]
    exact ih fun d hd => h d (by simp [hd])

theorem tryLabelAt_self (lab ws t : List Char)
    (hws : ∀ c ∈ ws, isJsSpace c = true) :
    tryLabelAt lab (lab ++ (ws ++ ':' :: t)) = some (lab, t) := by
  have h1 : List.dropWhile isJsSpace (ws ++ ':' :: t) = ':' :: t := by
    rw [dropWhile_spaces _ hws]
    simp [List.dropWhile_cons, show isJsSpace ':' = false from rfl]
  unfold tryLabelAt
  rw [matchLabel_self]
  simp [h1]

theorem tryLabelAt_head_ne {l b : Char} (ls s : List Char)
    (h : jsFoldChar b ≠ jsFoldChar l) :
    tryLabelAt (l :: ls) (b :: s) = none := by
  unfold tryLabelAt
  rw [matchLabel_head_ne _ _ h]

theorem tryLabelAt_some_length {lab s m rest : List Char}
    (h : tryLabelAt lab s = some (m, rest)) : rest.length < s.length := by
  unfold tryLabelAt at h
  cases hm : matchLabel lab s with
  | none => rw [hm] at h; simp at h
  | some p =>
    obtain ⟨m', r⟩ := p
    rw [hm] at h
    dsimp only at h
    have hr : r.length ≤ s.length := matchLabel_some_length hm
    have hd : (List.dropWhile isJsSpace r).length ≤ r.length :=
      dropWhile_length_le _ _
    cases hw : List.dropWhile isJsSpace r with
    | nil => rw [hw] at h; simp at h
    | cons x xs =>
      rw [hw] at h hd
      by_cases hx : x = ':'
      · subst hx
        simp only [Option.some.injEq, Prod.mk.injEq] at h
        obtain ⟨-, hrest⟩ := h
        subst hrest
        simp only [List.length_cons] at hd
        omega
      · simp [hx] at h

theorem tryBoundaryMatch_some_length {lab s chunk rest : List Char}
    (hb : tryBoundaryMatch lab s = some (chunk, rest)) :
    rest.length < s.length := by
  unfold tryBoundaryMatch at hb
  cases s with
  | nil => simp at hb
  | cons c cs =>
    dsimp only at hb
    by_cases hc : isBoundaryChar c = true
    · rw [if_pos hc] at hb
      cases ht : tryLabelAt lab cs with
      | none => rw [ht] at hb; simp at hb
      | some p =>
        obtain ⟨m, r⟩ := p
        rw [ht] at hb
        simp only [Option.some.injEq, Prod.mk.injEq] at hb
        obtain ⟨-, hr⟩ := hb
        subst hr
        have := tryLabelAt_some_length ht
        simp only [List.length_cons]
        omega
    · rw [if_neg hc] at hb; simp at hb

theorem tryMatchAt_some_length {lab : List Char} {atStart : Bool}
    {s chunk rest : List Char}
    (h : tryMatchAt lab atStart s = some (chunk, rest)) :
    rest.length < s.length := by
  unfold tryMatchAt at h
  by_cases hst : atStart = true
  · rw [if_pos hst] at h
    cases ht : tryLabelAt lab s with
    | none => rw [ht] at h; exact tryBoundaryMatch_some_length h
    | some p =>
      obtain ⟨m, r⟩ := p
      rw [ht] at h
      simp only [Option.some.injEq, Prod.mk.injEq] at h
      obtain ⟨-, hr⟩ := h
      subst hr
      exact tryLabelAt_some_length ht
  · rw [if_neg hst] at h
    exact tryBoundaryMatch_some_length h

theorem tryLabelAt_nil (lab : List Char) : tryLabelAt lab [] = none := by
  cases lab <;> rfl

theorem tryMatchAt_nil (lab : List Char) (st : Bool) :
    tryMatchAt lab st [] = none := by
  cases st with
  | false => rfl
  | true =>
    unfold tryMatchAt
    rw [if_pos rfl, tryLabelAt_nil]
    rfl

theorem scanBoldFuel_irrel (lab : List Char) :
    ∀ f g : Nat, ∀ st : Bool, ∀ s : List Char,
      s.length ≤ f → s.length ≤ g →
      scanBoldFuel lab f st s = scanBoldFuel lab g st s := by
  intro f
  induction f with
  | zero =>
    intro g st s hf hg
    have hs : s = [] := List.length_eq_zero.mp (Nat.le_zero.mp hf)
    subst hs
    cases g with
    | zero => rfl
    | succ g' =>
      simp [scanBoldFuel, tryMatchAt_nil]
  | succ f' ih =>
    intro g st s hf hg
    cases s with
    | nil =>
      cases g with
      | zero => simp [scanBoldFuel, tryMatchAt_nil]
      | succ g' => simp [scanBoldFuel, tryMatchAt_nil]
    | cons c cs =>
      cases g with
      | zero => simp at hg
      | succ g' =>
        simp only [scanBoldFuel]
        cases hm : tryMatchAt lab st (c :: cs) with
        | some p =>
          obtain ⟨chunk, rest⟩ := p
          have hlt := tryMatchAt_some_length hm
          simp only [List.length_cons] at hlt hf hg
          dsimp only
          rw [ih g' false rest (by omega) (by omega)]
        | none =>
          simp only [List.length_cons] at hf hg
          dsimp only
          rw [ih g' false cs (by omega) (by omega)]

theorem scanBold_nil (lab : List Char) (st : Bool) : scanBold lab st [] = [] := rfl

theorem scanBold_step {lab : List Char} {st : Bool} {s chunk rest : List Char}
    (h : tryMatchAt lab st s = some (chunk, rest)) :
    scanBold lab st s = chunk ++ scanBold lab false rest := by
  cases s with
  | nil => rw [tryMatchAt_nil] at h; exact absurd h (by simp)
  | cons c cs =>
    have hlt := tryMatchAt_some_length h
    simp only [List.length_cons] at hlt
    unfold scanBold
    simp only [List.length_cons, scanBoldFuel, h]
    rw [scanBoldFuel_irrel lab cs.length rest.length false rest (by omega) (by omega)]

theorem scanBold_boundary {l : Char} {ls : List Char} (b : Char) (ws t : List Char)
    (hb : isBoundaryChar b = true) (hf : jsFoldChar b ≠ jsFoldChar l)
    (hws : ∀ c ∈ ws, isJsSpace c = true) :
    scanBold (l :: ls) true (b :: ((l :: ls) ++ (ws ++ ':' :: t))) =
      b :: '*' :: '*' :: ((l :: ls) ++ ':' :: '*' :: '*' :: scanBold (l :: ls) false t) := by
  have hm : tryMatchAt (l :: ls) true (b :: ((l :: ls) ++ (ws ++ ':' :: t))) =
      some (boldChunk [b] (l :: ls), t) := by
    unfold tryMatchAt
    rw [if_pos rfl, tryLabelAt_head_ne _ _ hf]
    unfold tryBoundaryMatch
    dsimp only
    rw [if_pos hb, tryLabelAt_self _ _ _ hws]
  rw [scanBold_step hm]
  simp [boldChunk]

theorem scanBold_at_start (lab ws t : List Char)
    (hws : ∀ c ∈ ws, isJsSpace c = true) :
    scanBold lab true (lab ++ (ws ++ ':' :: t)) =
      '*' :: '*' :: (lab ++ ':' :: '*' :: '*' :: scanBold lab false t) := by
  have hm : tryMatchAt lab true (lab ++ (ws ++ ':' :: t)) =
      some (boldChunk [] lab, t) := by
    unfold tryMatchAt
    rw [if_pos rfl, tryLabelAt_self _ _ _ hws]
  rw [scanBold_step hm]
  simp [boldChunk]

theorem jsFoldChar_boundary_ne {b : Char} (hb : isBoundaryChar b = true)
    (u : Char) (h1 : 'A' ≤ u) (h2 : u ≤ 'Z') : jsFoldChar b ≠ u := by
  have key : ∀ x : Char, x ∈ boundaryChars → jsFoldChar x ≠ u := by
    intro x hx
    fin_cases hx <;>
      exact fun he => absurd (And.intro (he ▸ h1) (he ▸ h2)) (by decide)
  have hmem : b ∈ boundaryChars := by
    simp only [isBoundaryChar, Bool.or_eq_true, beq_iff_eq] at hb
    simp only [boundaryChars, List.mem_cons, List.mem_append, List.mem_singleton]
    rcases hb with ((((h | h) | h) | h) | h) | h
    · tauto
    · tauto
    · have hmw : b ∈ jsWhitespaceChars := by simpa [isJsSpace] using h
      tauto
    · tauto
    · tauto
    · tauto
  exact key b hmem

set_option maxRecDepth 10000

/-- Claim C1 (code bug).  The claim says that a body containing
"Availability:" followed by optional whitespace and a numeric token yields the
availability field `round(value*100) + "%"` (e.g. "75%").  The code's regex
literal `/Availability:\\s*([0-9.]+)/i` actually requires a literal backslash
after the colon (`\\` in a regex literal matches one backslash), so the clause
never matches spec-format text: on the spec's own example the availability
field is absent and the clause stays in the content, merely bolded. -/
theorem claim_C1_availability_code_bug :
    parseSupportingContentItem "Report.pdf: Availability: 0.75" =
      { title := "Report.pdf"
        content := "**Availability:** 0.75"
        availability := none } := by decide

/-- Claim C2 (code bug).  The claim says a found availability clause is
removed from the content and a dangling `; .` tail stripped.  Because of the
same literal-backslash regex bug no clause is ever found for spec-format
input, so nothing is removed: on the claim's example the content still
carries the availability text (as `**Availability:** 0.75`) and the
availability field is absent. -/
theorem claim_C2_removal_code_bug :
    parseSupportingContentItem
        "Report.pdf: Role: Senior Architect; Availability: 0.75; Location: Paris" =
      { title := "Report.pdf"
        content := "**Role:** Senior Architect; **Availability:** 0.75; **Location:** Paris"
        availability := none } := by decide

/-- Claim C3.  `parse` splits on the two-character separator ": ": the title
is the segment before the first occurrence (the whole input when absent, with
an empty body), and when the separator occurs the input decomposes as
`title ++ ": " ++ body` with a separator-free title, so every occurrence of
": " after the first is preserved verbatim in the body. -/
theorem claim_C3_title_body_split (s : String) :
    (parseSupportingContentItem s).title = String.mk (rawTitleL s.data) ∧
    (containsSep s.data = false → rawTitleL s.data = s.data ∧ rawBodyL s.data = []) ∧
    (containsSep s.data = true →
      s.data = rawTitleL s.data ++ ':' :: ' ' :: rawBodyL s.data ∧
        containsSep (rawTitleL s.data) = false) := by
  refine ⟨rfl, ?_, ?_⟩
  · intro h
    have hs := splitColonSpace_of_not_contains h
    simp [rawTitleL, rawBodyL, hs, joinSep]
  · intro h
    exact title_body_decomp h

/-- Witness for C3 at the input "a: b: c". -/
theorem claim_C3_witness :
    "a: b: c".data = rawTitleL "a: b: c".data ++ ':' :: ' ' :: rawBodyL "a: b: c".data ∧
      containsSep (rawTitleL "a: b: c".data) = false :=
  (claim_C3_title_body_split "a: b: c").2.2 (by decide)

/-- Claim C5.  `parse` is total: the variant with the one fallible step
(the `parts[0]` access) made explicit always succeeds and returns exactly the
record produced by the total parser, for every string input. -/
theorem claim_C5_total (s : String) :
    parseSupportingContentItemChecked s = some (parseSupportingContentItem s) := by
  cases hs : splitColonSpace s.data with
  | nil => exact absurd hs (splitColonSpace_ne_nil _)
  | cons t rest =>
    simp [parseSupportingContentItemChecked, parseSupportingContentItem,
      rawTitleL, rawBodyL, hs]

/-- Claim C7.  For every input without the separator ": ", the title is the
whole input, the body is empty, the content is the (sanitized) empty string
and availability is absent. -/
theorem claim_C7_no_separator (s : String) (h : containsSep s.data = false) :
    parseSupportingContentItem s =
      { title := s, content := "", availability := none } := by
  have hs := splitColonSpace_of_not_contains h
  simp only [parseSupportingContentItem, rawTitleL, rawBodyL, hs, List.headD_cons,
    List.tail_cons]
  rfl

/-- Witness for C7 at the input "hello". -/
theorem claim_C7_witness :
    containsSep "hello".data = false ∧
      parseSupportingContentItem "hello" =
        { title := "hello", content := "", availability := none } :=
  ⟨by decide, claim_C7_no_separator "hello" (by decide)⟩

/-- Claim C8.  If the availability clause matches but the captured token
does not parse to a finite number (e.g. the token "..."), `parse` returns the
raw captured token unmodified as the availability field. -/
theorem claim_C8_nonfinite_token (s : String) (whole tok : List Char)
    (hm : findAvail (rawBodyL s.data) = some (whole, tok))
    (hn : jsNumberOfToken tok = none) :
    (parseSupportingContentItem s).availability = some (String.mk tok) := by
  simp [parseSupportingContentItem, availabilityField, hm, hn]

/-- Witness for C8: on the input "t: Availability:\\..." the buggy regex
does match (the body carries the literal backslash it requires), the token
"..." is not a finite number, and the raw token is passed through. -/
theorem claim_C8_witness :
    findAvail (rawBodyL "t: Availability:\\...".data) =
        some ("Availability:\\...".data, "...".data) ∧
      jsNumberOfToken "...".data = none ∧
      (parseSupportingContentItem "t: Availability:\\...").availability = some "..." :=
  ⟨by decide, by decide,
    claim_C8_nonfinite_token "t: Availability:\\..." "Availability:\\...".data "...".data
      (by decide) (by decide)⟩

/-- Claim C9.  `parse` is deterministic: the same raw input yields identical
title, content and availability. -/
theorem claim_C9_deterministic (s t : String) (h : s = t) :
    (parseSupportingContentItem s).title = (parseSupportingContentItem t).title ∧
    (parseSupportingContentItem s).content = (parseSupportingContentItem t).content ∧
    (parseSupportingContentItem s).availability =
      (parseSupportingContentItem t).availability := by
  subst h
  exact ⟨rfl, rfl, rfl⟩

/-- Witness for C9 at the input "a: b". -/
theorem claim_C9_witness :
    (parseSupportingContentItem "a: b").title = (parseSupportingContentItem "a: b").title ∧
    (parseSupportingContentItem "a: b").content =
      (parseSupportingContentItem "a: b").content ∧
    (parseSupportingContentItem "a: b").availability =
      (parseSupportingContentItem "a: b").availability :=
  claim_C9_deterministic "a: b" "a: b" rfl

/-- Claim C6.  The content is sanitized after label emphasis (sanitizer
modelled from the spec, see `dompurifySanitize`): on
`"f.pdf: <script>alert(1)</script> Role: X"` the returned content is
`" **Role:** X"` — no script tag survives, the emphasis markers and ordinary
text are preserved, and the title is unaffected. -/
theorem claim_C6_sanitization :
    (parseSupportingContentItem "f.pdf: <script>alert(1)</script> Role: X").title =
      "f.pdf" ∧
    (parseSupportingContentItem "f.pdf: <script>alert(1)</script> Role: X").content =
      " **Role:** X" ∧
    hasSubstring "<script".data
      (parseSupportingContentItem "f.pdf: <script>alert(1)</script> Role: X").content.data =
      false ∧
    hasSubstring "**Role:**".data
      (parseSupportingContentItem "f.pdf: <script>alert(1)</script> Role: X").content.data =
      true :=
  ⟨by decide, by decide, by decide, by decide⟩

/-- Claim C4.  Label emphasis: each label of the fixed table, preceded by a
boundary character of `[\n\r\s;,.]` (or the start of the string) and
immediately followed by a colon, is rewritten by its substitution pass to
`**label:**` with the preceding character preserved; the passes run from
longest to shortest label and each applies globally; matching is
case-insensitive; and a body containing "Skillsets:" does not get "Skills"
bolded. -/
theorem claim_C4_label_emphasis :
    (∀ L ∈ LABELS_TO_BOLD, ∀ b : Char, isBoundaryChar b = true →
      scanBold L.data true (b :: (L.data ++ [':'])) =
        b :: '*' :: '*' :: (L.data ++ [':', '*', '*'])) ∧
    (∀ L ∈ LABELS_TO_BOLD,
      scanBold L.data true (L.data ++ [':']) =
        '*' :: '*' :: (L.data ++ [':', '*', '*'])) ∧
    List.Pairwise (fun a b : String => b.length ≤ a.length) labelsByLength ∧
    boldMetadataLabels "He has many Skillsets: zero.".data =
      "He has many Skillsets: zero.".data ∧
    boldMetadataLabels "Role: a; Role: b".data = "**Role:** a; **Role:** b".data ∧
    boldMetadataLabels "x, rOle: y".data = "x, **rOle:** y".data := by
  refine ⟨?_, ?_, by decide, by decide, by decide, by decide⟩
  · intro L hL b hb
    fin_cases hL <;>
      exact (scanBold_boundary b [] [] hb
          (jsFoldChar_boundary_ne hb _ (by decide) (by decide)) (by simp)).trans
        (by rw [scanBold_nil])
  · intro L hL
    fin_cases hL <;>
      exact (scanBold_at_start _ [] [] (by simp)).trans (by rw [scanBold_nil])

/-- Witness for C4 at label "Role" and boundary character space. -/
theorem claim_C4_witness :
    scanBold "Role".data true (' ' :: ("Role".data ++ [':'])) =
      ' ' :: '*' :: '*' :: ("Role".data ++ [':', '*', '*']) :=
  claim_C4_label_emphasis.1 "Role" (by decide) ' ' (by decide)

/-- Claim C10.  A label's substitution also matches when one or more
whitespace characters separate the label from its colon, and that whitespace
is dropped: the boundary-preceded occurrence `label ws :` becomes
`**label:**`. -/
theorem claim_C10_label_whitespace_colon :
    ∀ L ∈ LABELS_TO_BOLD, ∀ b : Char, isBoundaryChar b = true →
      ∀ ws : List Char, ws ≠ [] → (∀ c ∈ ws, isJsSpace c = true) →
      scanBold L.data true (b :: (L.data ++ (ws ++ [':']))) =
        b :: '*' :: '*' :: (L.data ++ [':', '*', '*']) := by
  intro L hL b hb ws hne hws
  fin_cases hL <;>
    exact (scanBold_boundary b ws [] hb
        (jsFoldChar_boundary_ne hb _ (by decide) (by decide)) hws).trans
      (by rw [scanBold_nil])

/-- Witness for C10 at label "Role", boundary space and one space before
the colon. -/
theorem claim_C10_witness :
    scanBold "Role".data true (' ' :: ("Role".data ++ ([' '] ++ [':']))) =
      ' ' :: '*' :: '*' :: ("Role".data ++ [':', '*', '*']) :=
  claim_C10_label_whitespace_colon "Role" (by decide) ' ' (by decide) [' ']
    (by decide) (by decide)

end SupportingContent
